import Mathlib

/-!
Verification of the phishing e-mail detection engine.

This file gives a shallow embedding, in Lean 4, of the detection and
model-lifecycle core of the repository:

* `backend/app.py` — rule-based detection (`detect_phishing_simple`),
  confidence scoring (`calculate_confidence_score`), risk levels
  (`get_risk_level`) and the ML-with-rule-fallback branch of `upload_email`;
* `backend/utils/ioc_extractor.py` — indicator severity
  (`_determine_severity`) and the IPv4 matcher of `extract_iocs`;
* `ml/feature_extraction.py` — the feature groups and the sorted feature
  vector of `FeatureExtractor`;
* `extras/auto_retrain/auto_retrain.py` — backup / prepare / train / save
  pipeline of `AutoRetrainer`, over an abstract file-system state;
* `ml/phishing_ml_model.py` — the input validation of
  `train_on_custom_data`.

Python strings are modelled as `List Char`, Python floats that the code
actually produces as `ℚ`, Python dicts with optional keys as structures of
`Option` fields (`dict.get(k, d)` becomes `Option.getD`), and the regular
expression matchers as executable scanners implementing the semantics of
`re.findall` for the concrete patterns of the source.
-/

set_option maxRecDepth 16000

namespace Phishing

/-! ### String primitives mirroring the Python operations used by the code -/

/-- Is `needle` a prefix of `haystack`?  (helper for substring containment). -/
def prefixAt : List Char → List Char → Bool
  | [], _ => true
  | _ :: _, [] => false
  | a :: as, b :: bs => a == b && prefixAt as bs

/-- Python `needle in haystack` substring containment on strings. -/
def containsSub (needle : List Char) : List Char → Bool
  | [] => needle.isEmpty
  | c :: rest => prefixAt needle (c :: rest) || containsSub needle rest

/-- Recursion core of `countSub`; `fuel` only bounds the recursion depth
(one unit per character position examined) and never runs out when started
at the text's length, since each step consumes at least one character. -/
def countSubAux : Nat → List Char → List Char → Nat
  | 0, _, _ => 0
  | _ + 1, _, [] => 0
  | fuel + 1, needle, c :: rest =>
    if prefixAt needle (c :: rest) && !needle.isEmpty then
      1 + countSubAux fuel needle ((c :: rest).drop needle.length)
    else
      countSubAux fuel needle rest

/-- Python `haystack.count(needle)` for a non-empty needle: number of
non-overlapping occurrences, scanning left to right.  (The guard
`needle ≠ []` only rules out the degenerate empty needle, which the code
never uses.) -/
def countSub (needle haystack : List Char) : Nat :=
  countSubAux haystack.length needle haystack

/-- Python `str.lower()` (the texts handled by the code are ASCII). -/
def lowerChars (cs : List Char) : List Char := cs.map Char.toLower

/-- Python ASCII digit test, i.e. the regex class `\d` on ASCII text. -/
def isDigitCh (c : Char) : Bool := '0' ≤ c && c ≤ '9'

/-- The regex word-character class `\w` on ASCII text (`[A-Za-z0-9_]`),
used by the `\b` boundary assertions. -/
def isWordCh (c : Char) : Bool := c.isAlpha || isDigitCh c || c == '_'

/-- Python `sum(1 for w in words if w in text)`: how many of the given
words occur (as substrings) in `text`. -/
def countPresent (words : List String) (text : List Char) : Nat :=
  (words.filter (fun w => containsSub w.data text)).length

/-! ### Data model

`EmailData` models the Python dict produced by the e-mail parsing
collaborator (and, in the retraining path, assembled from database rows):
a mapping whose keys may be absent, hence `Option` fields; `dict.get(k, d)`
becomes `Option.getD`.  `IocRec` models one extracted indicator record. -/

structure AttachmentRec where
  filename : String
  size : Nat
  content_type : String
  sha_hash : String
deriving DecidableEq

structure EmailData where
  sender : Option String
  subject : Option String
  body : Option String
  recipients : Option (List String)
  attachments : Option (List AttachmentRec)
  headers : Option (List (String × String))
  full_text : Option String
  ioc_count : Option Nat
  has_ipv4 : Option Bool
  has_url : Option Bool
  has_email : Option Bool
  has_hash : Option Bool
  ipv4_count : Option Nat
  url_count : Option Nat
  email_count : Option Nat
  domain_count : Option Nat
deriving DecidableEq

/-- The e-mail dict with every key absent. -/
def emptyEmailData : EmailData :=
  ⟨none, none, none, none, none, none, none, none,
   none, none, none, none, none, none, none, none⟩

/-- One indicator record, as stored by the backend (`ioc_type`, `ioc_value`,
`severity`). -/
structure IocRec where
  ioc_type : String
  ioc_value : String
  severity : String
deriving DecidableEq

/-! ### `backend/app.py`: rule-based detection -/

/-- Urgency word list of `detect_phishing_simple` / `calculate_confidence_score`
(`app.py` lines 100-101 and 164-165; the two functions share it). -/
def urgency_words : List String :=
  ["urgent", "immediately", "action required", "verify", "suspend",
   "limited time", "act now", "expires", "warning"]

/-- Suspicious keyword list of `detect_phishing_simple` (`app.py` 115-117). -/
def suspicious_keywords_detect : List String :=
  ["password", "credit card", "social security", "bank account",
   "verify account", "click here", "winner", "prize", "lottery",
   "inheritance", "suspended", "confirm"]

/-- The smaller suspicious keyword list of `calculate_confidence_score`
(`app.py` 175-176). -/
def suspicious_keywords_confidence : List String :=
  ["password", "credit card", "social security", "bank account",
   "verify account", "click here", "winner", "prize", "lottery"]

/-- Suspicious TLD list used by `app.py` (lines 127 and 183). -/
def suspicious_tlds_app : List String :=
  [".tk", ".ml", ".ga", ".cf", ".gq", ".xyz", ".top", ".click"]

/-- The hash indicator types (`['md5', 'sha1', 'sha256']` in `app.py` 134). -/
def hash_ioc_types : List String := ["md5", "sha1", "sha256"]

/-- The integer score accumulated by `detect_phishing_simple`
(`app.py` 92-155); the function returns `score ≥ 50`. -/
def phishing_score (email_data : EmailData) (iocs : List IocRec) : Nat :=
  let subject := lowerChars (email_data.subject.getD "").data
  let body := lowerChars (email_data.body.getD "").data
  let combined_text := subject ++ ' ' :: body
  let urgency_count := countPresent urgency_words combined_text
  let s_urgency : Nat :=
    if urgency_count ≥ 3 then 30 else if urgency_count ≥ 1 then 15 else 0
  let suspicious_count := countPresent suspicious_keywords_detect combined_text
  let s_suspicious : Nat :=
    if suspicious_count ≥ 3 then 25 else if suspicious_count ≥ 1 then 10 else 0
  let sender := lowerChars (email_data.sender.getD "").data
  let s_sender : Nat :=
    if suspicious_tlds_app.any (fun tld => containsSub tld.data sender) then 35 else 0
  let ioc_score := iocs.foldl
    (fun acc ioc =>
      let a := if ioc.ioc_type ∈ hash_ioc_types then acc + 10 else acc
      if ioc.severity == "high" then a + 15
      else if ioc.severity == "medium" then a + 8 else a)
    0
  let s_ioc := min ioc_score 40
  let link_count := countSub "http://".data body + countSub "https://".data body
  let s_links : Nat := if link_count > 5 then 15 else if link_count > 2 then 5 else 0
  let s_ip : Nat :=
    if iocs.any (fun ioc => ioc.ioc_type == "ipv4" && containsSub "http".data combined_text)
    then 20 else 0
  s_urgency + s_suspicious + s_sender + s_ioc + s_links + s_ip

/-- `detect_phishing_simple` (`app.py` 92-155): rule verdict. -/
def detect_phishing_simple (email_data : EmailData) (iocs : List IocRec) : Bool :=
  phishing_score email_data iocs ≥ 50

/-- `calculate_confidence_score` (`app.py` 157-194): confidence in `[0,100]`. -/
def calculate_confidence_score (email_data : EmailData) (iocs : List IocRec) : Nat :=
  let subject := lowerChars (email_data.subject.getD "").data
  let body := lowerChars (email_data.body.getD "").data
  let combined_text := subject ++ ' ' :: body
  let urgency_count := countPresent urgency_words combined_text
  let suspicious_count := countPresent suspicious_keywords_confidence combined_text
  let sender := lowerChars (email_data.sender.getD "").data
  let s_sender : Nat :=
    if suspicious_tlds_app.any (fun tld => containsSub tld.data sender) then 20 else 0
  let high_severity_iocs := (iocs.filter (fun ioc => ioc.severity == "high")).length
  let medium_severity_iocs := (iocs.filter (fun ioc => ioc.severity == "medium")).length
  let score := min (urgency_count * 8) 25 + min (suspicious_count * 7) 20 + s_sender
    + min (high_severity_iocs * 10) 20 + min (medium_severity_iocs * 5) 15
  min score 100

/-- `get_risk_level` (`app.py` 196-211). -/
def get_risk_level (is_phishing : Bool) (confidence_score : ℚ) : String :=
  if is_phishing then
    if confidence_score ≥ 80 then "Critical"
    else if confidence_score ≥ 60 then "High"
    else "Medium"
  else
    if confidence_score ≥ 40 then "Low"
    else "Safe"

/-! ### `backend/app.py`: the detection step of `upload_email` (lines 282-329, 379)

The model path and its exception handler are embedded as a total function:
`ml_model_available` is the global flag, and `ml_outcome` models the result
of `ml_model.predict(email_data)` — `some (prediction, probabilities[1])` on
success, `none` when the inference raised (the `except Exception` branch).
Totality of the Lean function is the "never raises to the caller" behaviour
of the `try/except`. -/

/-- The fields of the verdict `upload_email` stores and returns: the e-mail
verdict, the `MLPrediction` row, and the response's `risk_level`. -/
structure DetectionOutcome where
  is_phishing : Bool
  confidence_score : ℚ
  predicted_class : String
  probability : ℚ
  model_version : String
  risk_level : String
deriving DecidableEq

/-- The rule-based fallback branch of `upload_email` (`app.py` 309-318 and
321-329): verdict from `detect_phishing_simple`, confidence from
`calculate_confidence_score`, and a `rule-based-v1.0` prediction row. -/
def rule_based_result (email_data : EmailData) (iocs : List IocRec) : DetectionOutcome :=
  let is_phishing := detect_phishing_simple email_data iocs
  let confidence_score : ℚ := calculate_confidence_score email_data iocs
  { is_phishing := is_phishing
    confidence_score := confidence_score
    predicted_class := if is_phishing then "phishing" else "legitimate"
    probability := confidence_score / 100
    model_version := "rule-based-v1.0"
    risk_level := get_risk_level is_phishing confidence_score }

/-- The detection step of `upload_email` (`app.py` 282-329): ML first when a
model is available, rule-based on `none` (= the model raised) or when no
model is loaded.  `ml_outcome = some (pred, prob1)` carries
`ml_model.predict`'s class and phishing-class probability. -/
def upload_email_detection (ml_model_available : Bool)
    (ml_outcome : Option (Nat × ℚ)) (ml_version : String)
    (email_data : EmailData) (iocs : List IocRec) : DetectionOutcome :=
  if ml_model_available then
    match ml_outcome with
    | some (prediction, prob1) =>
      let is_phishing := prediction == 1
      let confidence_score := prob1 * 100
      { is_phishing := is_phishing
        confidence_score := confidence_score
        predicted_class := if is_phishing then "phishing" else "legitimate"
        probability := prob1
        model_version := ml_version
        risk_level := get_risk_level is_phishing confidence_score }
    | none => rule_based_result email_data iocs
  else rule_based_result email_data iocs

/-! ### `backend/utils/ioc_extractor.py`: severity -/

/-- Suspicious TLD list of `_determine_severity` (`ioc_extractor.py` 92;
note: it has no `.click`, unlike the list in `app.py`). -/
def suspicious_tlds_extractor : List String :=
  [".tk", ".ml", ".ga", ".cf", ".gq", ".xyz", ".top"]

/-- Does the lowercased value contain a suspicious-TLD substring?
(`any(tld in value.lower() for tld in suspicious_tlds)`). -/
def value_has_suspicious_tld (value : String) : Bool :=
  suspicious_tlds_extractor.any (fun tld => containsSub tld.data (lowerChars value.data))

/-- `IOCExtractor._determine_severity` (`ioc_extractor.py` 80-107). -/
def determine_severity (ioc_type : String) (value : String) : String :=
  if ioc_type ∈ (["md5", "sha1", "sha256"] : List String) then "high"
  else if ioc_type == "ipv4" then "medium"
  else if ioc_type == "url" then
    (if value_has_suspicious_tld value then "high" else "medium")
  else if ioc_type == "domain" then
    (if value_has_suspicious_tld value then "high" else "low")
  else "low"

/-- The pattern keys of `IOCExtractor.__init__` (`ioc_extractor.py` 12-20),
in insertion order. -/
def extractor_pattern_types : List String :=
  ["ipv4", "url", "email", "domain", "md5", "sha1", "sha256"]

/-! ### The end-to-end example e-mail of the specification -/

/-- The example e-mail of spec §8 (subject/body/sender as given there). -/
def example_email : EmailData :=
  { emptyEmailData with
    sender := some "security@secure-bank.tk"
    subject := some "URGENT: Action Required - Verify Your Account Immediately"
    body := some "Please verify your account immediately or it will be suspended. Click here to confirm: http://secure-bank.tk/login" }

/-- The indicators `IOCExtractor.extract_from_email` yields for
`example_email` (one `url`, one `email`, one deduplicated `domain`, in the
pattern-key order of the extractor), with severities assigned by
`_determine_severity`. -/
def example_iocs : List IocRec :=
  [⟨"url", "http://secure-bank.tk/login",
     determine_severity "url" "http://secure-bank.tk/login"⟩,
   ⟨"email", "security@secure-bank.tk",
     determine_severity "email" "security@secure-bank.tk"⟩,
   ⟨"domain", "secure-bank.tk",
     determine_severity "domain" "secure-bank.tk"⟩]

/-- The `combined_text` string the two scoring functions build for the
example e-mail (`subject.lower() + ' ' + body.lower()`). -/
def example_combined_text : List Char :=
  lowerChars (example_email.subject.getD "").data ++
    ' ' :: lowerChars (example_email.body.getD "").data

/-! ## Theorems for the claims -/

/-- Claim C1: for every e-mail and indicator list, when the model path is
taken (`ml_model_available = true`) and inference raises (outcome `none`),
`upload_email` still produces a complete verdict computed by the rule
engine: `is_phishing` from `detect_phishing_simple`, confidence from
`calculate_confidence_score`, model version recorded as the rule-based
fallback `rule-based-v1.0`, and a risk level derived from the rule verdict.
The embedding of the `try/except` as a total function returning
`DetectionOutcome` is exactly the guarantee that the exception never
propagates to the caller. -/
theorem ml_exception_falls_back_to_rule_verdict
    (email_data : EmailData) (iocs : List IocRec) (ml_version : String) :
    upload_email_detection true none ml_version email_data iocs =
      rule_based_result email_data iocs
    ∧ (upload_email_detection true none ml_version email_data iocs).is_phishing =
      detect_phishing_simple email_data iocs
    ∧ (upload_email_detection true none ml_version email_data iocs).confidence_score =
      (calculate_confidence_score email_data iocs : ℚ)
    ∧ (upload_email_detection true none ml_version email_data iocs).model_version =
      "rule-based-v1.0"
    ∧ (upload_email_detection true none ml_version email_data iocs).risk_level =
      get_risk_level (detect_phishing_simple email_data iocs)
        (calculate_confidence_score email_data iocs) :=
  ⟨rfl, rfl, rfl, rfl, rfl⟩

/-- Claim C3: `get_risk_level` realises exactly the five-row table:
Critical / High / Medium on a phishing verdict as confidence is `≥ 80`,
in `[60, 80)`, or `< 60`; Low / Safe on a non-phishing verdict as
confidence is `≥ 40` or `< 40`. -/
theorem risk_level_table (conf : ℚ) :
    (conf ≥ 80 → get_risk_level true conf = "Critical")
    ∧ (conf ≥ 60 → conf < 80 → get_risk_level true conf = "High")
    ∧ (conf < 60 → get_risk_level true conf = "Medium")
    ∧ (conf ≥ 40 → get_risk_level false conf = "Low")
    ∧ (conf < 40 → get_risk_level false conf = "Safe") := by
  have etrue : get_risk_level true conf =
      if conf ≥ 80 then "Critical" else if conf ≥ 60 then "High" else "Medium" := rfl
  have efalse : get_risk_level false conf =
      if conf ≥ 40 then "Low" else "Safe" := rfl
  refine ⟨fun h => ?_, fun h1 h2 => ?_, fun h => ?_, fun h => ?_, fun h => ?_⟩
  · rw [etrue, if_pos h]
  · rw [etrue, if_neg (by linarith), if_pos h1]
  · rw [etrue, if_neg (by linarith), if_neg (by linarith)]
  · rw [efalse, if_pos h]
  · rw [efalse, if_neg (by linarith)]

/-- Witness for C3 at the five confidences named by the claim. -/
theorem risk_level_table_witness :
    get_risk_level true 85 = "Critical" ∧ get_risk_level true 65 = "High"
    ∧ get_risk_level true 50 = "Medium" ∧ get_risk_level false 45 = "Low"
    ∧ get_risk_level false 10 = "Safe" :=
  ⟨(risk_level_table 85).1 (by norm_num),
   (risk_level_table 65).2.1 (by norm_num) (by norm_num),
   (risk_level_table 50).2.2.1 (by norm_num),
   (risk_level_table 45).2.2.2.1 (by norm_num),
   (risk_level_table 10).2.2.2.2 (by norm_num)⟩

/-- Claim C4 counterexample: on the spec's example e-mail with its extracted
indicators, `calculate_confidence_score` returns 72, not the 71 the claim
states (five urgency words hit — urgent, immediately, action required,
verify, suspend — so the urgency term is `min(5*8, 25) = 25`, not 24). -/
theorem example_email_confidence_is_not_71 :
    calculate_confidence_score example_email example_iocs ≠ 71 := by decide

/-- Claim C4 (amended): on the example e-mail the rule score is 120
(30 urgency + 25 suspicious keywords + 35 sender TLD + 30 indicator
contribution), hence `is_phishing = true`; five urgency words hit and three
detection keywords hit; the extracted url and domain indicators are
high-severity and the email indicator low; the confidence score is 72
(25 urgency + 7 suspicious-keyword + 20 TLD + 20 high-severity indicators),
giving `risk_level = High`. -/
theorem example_email_scores :
    phishing_score example_email example_iocs = 120
    ∧ detect_phishing_simple example_email example_iocs = true
    ∧ countPresent urgency_words example_combined_text = 5
    ∧ countPresent suspicious_keywords_detect example_combined_text = 3
    ∧ countPresent suspicious_keywords_confidence example_combined_text = 1
    ∧ determine_severity "url" "http://secure-bank.tk/login" = "high"
    ∧ determine_severity "domain" "secure-bank.tk" = "high"
    ∧ determine_severity "email" "security@secure-bank.tk" = "low"
    ∧ calculate_confidence_score example_email example_iocs = 72
    ∧ get_risk_level (detect_phishing_simple example_email example_iocs)
        (calculate_confidence_score example_email example_iocs) = "High" := by
  refine ⟨by decide, by decide, by decide, by decide, by decide,
    by decide, by decide, by decide, by decide, by decide⟩

/-- Claim C5: `_determine_severity` is a pure function of `(type, value)`:
md5/sha1/sha256 are high; ipv4 medium; url high exactly when the lowercased
value contains a suspicious-TLD substring and medium otherwise; domain high
when suspicious TLD and low otherwise; email (the final `else`) low; and
identical inputs always yield identical output. -/
theorem severity_table (v : String) :
    determine_severity "md5" v = "high"
    ∧ determine_severity "sha1" v = "high"
    ∧ determine_severity "sha256" v = "high"
    ∧ determine_severity "ipv4" v = "medium"
    ∧ (value_has_suspicious_tld v = true → determine_severity "url" v = "high")
    ∧ (value_has_suspicious_tld v = false → determine_severity "url" v = "medium")
    ∧ (value_has_suspicious_tld v = true → determine_severity "domain" v = "high")
    ∧ (value_has_suspicious_tld v = false → determine_severity "domain" v = "low")
    ∧ determine_severity "email" v = "low"
    ∧ (∀ t : String, determine_severity t v = determine_severity t v) := by
  refine ⟨rfl, rfl, rfl, rfl, fun h => ?_, fun h => ?_, fun h => ?_, fun h => ?_,
    rfl, fun _ => rfl⟩ <;>
    simp [determine_severity, h]

/-- Witness for C5, exercising every severity branch at concrete values. -/
theorem severity_table_witness :
    determine_severity "md5" "d41d8cd98f00b204e9800998ecf8427e" = "high"
    ∧ determine_severity "ipv4" "10.0.0.1" = "medium"
    ∧ determine_severity "url" "http://secure-bank.tk/login" = "high"
    ∧ determine_severity "url" "http://example.com/a" = "medium"
    ∧ determine_severity "domain" "secure-bank.tk" = "high"
    ∧ determine_severity "domain" "example.com" = "low"
    ∧ determine_severity "email" "user@example.com" = "low" :=
  ⟨(severity_table "d41d8cd98f00b204e9800998ecf8427e").1,
   (severity_table "10.0.0.1").2.2.2.1,
   (severity_table "http://secure-bank.tk/login").2.2.2.2.1 (by decide),
   (severity_table "http://example.com/a").2.2.2.2.2.1 (by decide),
   (severity_table "secure-bank.tk").2.2.2.2.2.2.1 (by decide),
   (severity_table "example.com").2.2.2.2.2.2.2.1 (by decide),
   (severity_table "user@example.com").2.2.2.2.2.2.2.2.1⟩

/-! ### `ml/feature_extraction.py`: the feature pipeline

Feature values are modelled as `ℚ` (the Python code mixes ints, floats and
bools in one dict; `get_feature_vector` coerces them all with `float`, here
`boolToQ` / `Nat` casts). -/

/-- Python `float(b)` on a bool. -/
def boolToQ (b : Bool) : ℚ := if b then 1 else 0

/-- Python `str.split()` whitespace class (space, tab, newline, return,
vertical tab, form feed). -/
def isSpaceCh (c : Char) : Bool :=
  c == ' ' || c == '\t' || c == '\n' || c == '\r' || c == '\x0b' || c == '\x0c'

/-- Recursion core of `splitWs` (accumulates the current word reversed). -/
def splitWsAux (acc : List Char) : List Char → List (List Char)
  | [] => if acc.isEmpty then [] else [acc.reverse]
  | c :: rest =>
    if isSpaceCh c then
      if acc.isEmpty then splitWsAux [] rest else acc.reverse :: splitWsAux [] rest
    else splitWsAux (c :: acc) rest

/-- Python `text.split()`: words separated by whitespace runs, no empties. -/
def splitWs (text : List Char) : List (List Char) := splitWsAux [] text

/-- `FeatureExtractor.urgency_words` (`feature_extraction.py` 12-15). -/
def urgency_words_fe : List String :=
  ["urgent", "immediately", "action required", "verify", "suspend",
   "limited time", "act now", "confirm", "expires", "update", "warning"]

/-- `FeatureExtractor.suspicious_keywords` (`feature_extraction.py` 17-21). -/
def suspicious_keywords_fe : List String :=
  ["password", "credit card", "social security", "bank account",
   "verify account", "click here", "winner", "prize", "lottery",
   "inheritance", "transfer", "refund", "tax", "suspended"]

/-- `FeatureExtractor.suspicious_tlds` (`feature_extraction.py` 23-26). -/
def suspicious_tlds_fe : List String :=
  [".tk", ".ml", ".ga", ".cf", ".gq", ".xyz", ".top", ".work",
   ".click", ".link", ".download", ".stream"]

/-- The URL-shortener domains of `extract_url_features` (line 71). -/
def shortener_domains : List String :=
  ["bit.ly", "tinyurl", "goo.gl", "t.co", "ow.ly"]

/-- `extract_text_features` (`feature_extraction.py` 28-51).  The two
divisions are guarded exactly as in the source (`if text.split() else 0`,
`if len(text) > 0 else 0`). -/
def extract_text_features (text : List Char) : List (String × ℚ) :=
  let words := splitWs text
  [("length", (text.length : ℚ)),
   ("num_words", (words.length : ℚ)),
   ("num_sentences",
     ((countSub ".".data text + countSub "!".data text + countSub "?".data text : Nat) : ℚ)),
   ("avg_word_length",
     if words.isEmpty then 0
     else ((words.map List.length).sum : ℚ) / (words.length : ℚ)),
   ("num_exclamation", (countSub "!".data text : ℚ)),
   ("num_question", (countSub "?".data text : ℚ)),
   ("num_uppercase", ((text.filter Char.isUpper).length : ℚ)),
   ("uppercase_ratio",
     if 0 < text.length
     then ((text.filter Char.isUpper).length : ℚ) / (text.length : ℚ)
     else 0)]

/-- Character class of the URL regex body
`(?:[a-zA-Z]|[0-9]|[$-_@.&+]|[!*\\(\\),]|(?:%hh))+` under `re.IGNORECASE`
(`$-_` is the byte range 0x24-0x5F; the `%hh` alternative is subsumed by it;
IGNORECASE closes the class under case). -/
def urlBodyChar (c : Char) : Bool :=
  c.isAlpha || isDigitCh c || (36 ≤ c.toNat && c.toNat ≤ 95) ||
    c == '!' || c == '*' || c == '\\' || c == '(' || c == ')' || c == ','

/-- Case-insensitive character comparison (for `re.IGNORECASE` literals). -/
def lowEq (c target : Char) : Bool := c.toLower == target

/-- One attempted match of the URL pattern `http[s]?://(...)+` at the head
of `cs`, returning the match and the remaining text.  The optional `s` and
the greedy body need no backtracking: `:` never equals `s`, and nothing
follows the `+`. -/
def matchUrlAt : List Char → Option (List Char × List Char)
  | c1 :: c2 :: c3 :: c4 :: rest =>
    if lowEq c1 'h' && lowEq c2 't' && lowEq c3 't' && lowEq c4 'p' then
      let sp : List Char × List Char :=
        match rest with
        | c5 :: r => if lowEq c5 's' then ([c5], r) else ([], c5 :: r)
        | [] => ([], [])
      match sp.2 with
      | a :: b :: c :: r2 =>
        if a == ':' && b == '/' && c == '/' then
          let ubody := r2.takeWhile urlBodyChar
          if ubody.isEmpty then none
          else some ([c1, c2, c3, c4] ++ sp.1 ++ a :: b :: c :: ubody,
                     r2.dropWhile urlBodyChar)
        else none
      | _ => none
    else none
  | _ => none

/-- Recursion core of `findUrls` (`re.findall` semantics: try at every
position, continue after each non-overlapping match).  `fuel` bounds the
recursion and never runs out when started at the text's length. -/
def findUrlsAux : Nat → List Char → List (List Char)
  | 0, _ => []
  | _ + 1, [] => []
  | fuel + 1, c :: rest =>
    match matchUrlAt (c :: rest) with
    | some (m, r) => m :: findUrlsAux fuel r
    | none => findUrlsAux fuel rest

/-- `re.findall(url_pattern, text, re.IGNORECASE)` of
`extract_url_features` (`feature_extraction.py` 64-65). -/
def findUrls (text : List Char) : List (List Char) := findUrlsAux text.length text

/-- Leading run of ASCII digits. -/
def digitRun (cs : List Char) : Nat := (cs.takeWhile isDigitCh).length

/-- One group `\d{1,3}\.` of the IP-literal search pattern: succeeds iff the
leading digit run has length 1-3 (a run of 4 or more leaves every greedy
retry stuck on a digit) and is followed by a dot. -/
def groupDotAt (cs : List Char) : Option (List Char) :=
  let r := digitRun cs
  if 1 ≤ r ∧ r ≤ 3 ∧ (cs.drop r).headD ' ' = '.' then some (cs.drop (r + 1)) else none

/-- A match of `\d{1,3}\.\d{1,3}\.\d{1,3}\.\d{1,3}` starting at the head. -/
def matchIpLikeAt (cs : List Char) : Bool :=
  match groupDotAt cs with
  | none => false
  | some r1 =>
    match groupDotAt r1 with
    | none => false
    | some r2 =>
      match groupDotAt r2 with
      | none => false
      | some r3 => decide (1 ≤ digitRun r3)

/-- `re.search(r'\d{1,3}\.\d{1,3}\.\d{1,3}\.\d{1,3}', url)` of
`extract_url_features` (line 77): a match starting at some position. -/
def searchIpLike : List Char → Bool
  | [] => false
  | c :: rest => matchIpLikeAt (c :: rest) || searchIpLike rest

/-- `extract_url_features` (`feature_extraction.py` 53-85). -/
def extract_url_features (text : List Char) : List (String × ℚ) :=
  let urls := findUrls text
  [("num_links", (urls.length : ℚ)),
   ("has_shortened_url", boolToQ (if urls.isEmpty then false
     else urls.any (fun u => shortener_domains.any
       (fun d => containsSub d.data (lowerChars u))))),
   ("has_suspicious_tld", boolToQ (if urls.isEmpty then false
     else urls.any (fun u => suspicious_tlds_fe.any
       (fun tld => containsSub tld.data (lowerChars u))))),
   ("has_ip_address", boolToQ (if urls.isEmpty then false
     else urls.any searchIpLike)),
   ("num_at_symbols", ((urls.map (fun u => countSub "@".data u)).sum : ℚ)),
   ("avg_url_length",
     if urls.isEmpty then 0
     else ((urls.map List.length).sum : ℚ) / (urls.length : ℚ)),
   ("max_url_length",
     if urls.isEmpty then 0 else (((urls.map List.length).foldl max 0 : Nat) : ℚ))]

/-- `extract_email_features` (`feature_extraction.py` 87-110). -/
def extract_email_features (email_data : EmailData) : List (String × ℚ) :=
  let sender := (email_data.sender.getD "").data
  let subject := (email_data.subject.getD "").data
  let body := (email_data.body.getD "").data
  [("subject_length", (subject.length : ℚ)),
   ("body_length", (body.length : ℚ)),
   ("sender_has_numbers", boolToQ (sender.any isDigitCh)),
   ("num_recipients", ((email_data.recipients.getD []).length : ℚ)),
   ("has_attachments", boolToQ (decide (0 < (email_data.attachments.getD []).length))),
   ("num_attachments", ((email_data.attachments.getD []).length : ℚ))]

/-- `extract_keyword_features` (`feature_extraction.py` 112-139): occurrence
counts (`str.count`) and presence flags over the extractor's own keyword
lists. -/
def extract_keyword_features (text : List Char) : List (String × ℚ) :=
  let text_lower := lowerChars text
  [("num_urgency_words",
     ((urgency_words_fe.map (fun w => countSub w.data text_lower)).sum : ℚ)),
   ("has_urgency_words",
     boolToQ (urgency_words_fe.any (fun w => containsSub w.data text_lower))),
   ("num_suspicious_keywords",
     ((suspicious_keywords_fe.map (fun w => countSub w.data text_lower)).sum : ℚ)),
   ("has_suspicious_keywords",
     boolToQ (suspicious_keywords_fe.any (fun w => containsSub w.data text_lower)))]

/-- `extract_ioc_features` (`feature_extraction.py` 141-163). -/
def extract_ioc_features (email_data : EmailData) : List (String × ℚ) :=
  [("ioc_total_count", (email_data.ioc_count.getD 0 : ℚ)),
   ("has_ipv4_ioc", boolToQ (email_data.has_ipv4.getD false)),
   ("has_url_ioc", boolToQ (email_data.has_url.getD false)),
   ("has_email_ioc", boolToQ (email_data.has_email.getD false)),
   ("has_hash_ioc", boolToQ (email_data.has_hash.getD false)),
   ("ipv4_ioc_count", (email_data.ipv4_count.getD 0 : ℚ)),
   ("url_ioc_count", (email_data.url_count.getD 0 : ℚ)),
   ("email_ioc_count", (email_data.email_count.getD 0 : ℚ)),
   ("domain_ioc_count", (email_data.domain_count.getD 0 : ℚ))]

/-- `extract_all_features` (`feature_extraction.py` 165-195): the five
feature groups merged in insertion order (all keys are distinct, so the
Python `{**a, **b, ...}` merge is concatenation). -/
def extract_all_features (email_data : EmailData) : List (String × ℚ) :=
  let subject := (email_data.subject.getD "").data
  let body := (email_data.body.getD "").data
  let combined_text := subject ++ ' ' :: body
  extract_text_features combined_text ++ extract_url_features combined_text
    ++ extract_email_features email_data ++ extract_keyword_features combined_text
    ++ extract_ioc_features email_data

/-- Lexicographic comparison of strings by character code point — the order
Python's `sorted` uses on `str`. -/
def charsLeB : List Char → List Char → Bool
  | [], _ => true
  | _ :: _, [] => false
  | a :: as, b :: bs => a.toNat < b.toNat || (a == b && charsLeB as bs)

/-- `a ≤ b` in Python string order. -/
def stringLeB (a b : String) : Bool := charsLeB a.data b.data

/-- Sorted insertion for `sortStrings`. -/
def insertSorted (a : String) : List String → List String
  | [] => [a]
  | b :: rest => if stringLeB a b then a :: b :: rest else b :: insertSorted a rest

/-- Python `sorted` on a list of strings (insertion sort; on the distinct
feature names any comparison sort yields the same, unique result). -/
def sortStrings : List String → List String
  | [] => []
  | a :: rest => insertSorted a (sortStrings rest)

/-- `get_feature_names` (`feature_extraction.py` 219-230):
`sorted(features.keys())`. -/
def get_feature_names (email_data : EmailData) : List String :=
  sortStrings ((extract_all_features email_data).map Prod.fst)

/-- `get_feature_vector` (`feature_extraction.py` 197-217): the feature
values read off in sorted-name order. -/
def get_feature_vector (email_data : EmailData) : List ℚ :=
  let features := extract_all_features email_data
  (sortStrings (features.map Prod.fst)).map (fun n => (features.lookup n).getD 0)

/-- The 34 feature names, in the insertion order of `extract_all_features`. -/
def feature_names : List String :=
  ["length", "num_words", "num_sentences", "avg_word_length",
   "num_exclamation", "num_question", "num_uppercase", "uppercase_ratio",
   "num_links", "has_shortened_url", "has_suspicious_tld", "has_ip_address",
   "num_at_symbols", "avg_url_length", "max_url_length",
   "subject_length", "body_length", "sender_has_numbers", "num_recipients",
   "has_attachments", "num_attachments",
   "num_urgency_words", "has_urgency_words", "num_suspicious_keywords",
   "has_suspicious_keywords",
   "ioc_total_count", "has_ipv4_ioc", "has_url_ioc", "has_email_ioc",
   "has_hash_ioc", "ipv4_ioc_count", "url_ioc_count", "email_ioc_count",
   "domain_ioc_count"]

/-- The 34 feature names in lexicographic order. -/
def feature_names_sorted : List String :=
  ["avg_url_length", "avg_word_length", "body_length", "domain_ioc_count",
   "email_ioc_count", "has_attachments", "has_email_ioc", "has_hash_ioc",
   "has_ip_address", "has_ipv4_ioc", "has_shortened_url",
   "has_suspicious_keywords", "has_suspicious_tld", "has_urgency_words",
   "has_url_ioc", "ioc_total_count", "ipv4_ioc_count", "length",
   "max_url_length", "num_at_symbols", "num_attachments", "num_exclamation",
   "num_links", "num_question", "num_recipients", "num_sentences",
   "num_suspicious_keywords", "num_uppercase", "num_urgency_words",
   "num_words", "sender_has_numbers", "subject_length", "uppercase_ratio",
   "url_ioc_count"]

/-- The e-mail dict with every field present but empty / zero — the
defaults `extract_*_features` substitute via `.get`. -/
def defaultFieldsEmailData : EmailData :=
  ⟨some "", some "", some "", some [], some [], some [], some "", some 0,
   some false, some false, some false, some false, some 0, some 0, some 0, some 0⟩

/-- `sortStrings` on the feature names, evaluated. -/
theorem sortStrings_feature_names : sortStrings feature_names = feature_names_sorted := by
  decide

/-- Claim C7: for every pair of e-mails — in particular e-mails with
entirely disjoint content — `extract_all_features` yields the identical
fixed list of feature names (the 34 names of `feature_names`), and
`get_feature_names` / `get_feature_vector` order them lexicographically
(by `stringLeB`, the code-point order Python's `sorted` uses): both e-mails
get the same canonical name order `feature_names_sorted`, and the vector is
the value list read off in exactly that order. -/
theorem feature_schema_stable (e1 e2 : EmailData) :
    (extract_all_features e1).map Prod.fst = (extract_all_features e2).map Prod.fst
    ∧ (extract_all_features e1).map Prod.fst = feature_names
    ∧ get_feature_names e1 = get_feature_names e2
    ∧ get_feature_names e1 = feature_names_sorted
    ∧ List.Pairwise (fun a b => stringLeB a b = true) (get_feature_names e1)
    ∧ get_feature_vector e1 = (get_feature_names e1).map
        (fun n => ((extract_all_features e1).lookup n).getD 0) := by
  have h1 : get_feature_names e1 = feature_names_sorted :=
    (show get_feature_names e1 = sortStrings feature_names from rfl).trans
      sortStrings_feature_names
  have h2 : get_feature_names e2 = feature_names_sorted :=
    (show get_feature_names e2 = sortStrings feature_names from rfl).trans
      sortStrings_feature_names
  have k1 : (extract_all_features e1).map Prod.fst = feature_names := rfl
  have k2 : (extract_all_features e2).map Prod.fst = feature_names := rfl
  refine ⟨k1.trans k2.symm, k1, h1.trans h2.symm, h1, ?_, rfl⟩
  rw [h1]
  decide

/-- Claim C8: feature encoding is total.  For every e-mail dict the
extraction returns a complete feature mapping carrying the full fixed name
list (so no lookup and no division can fail); on the dict missing all of
sender, subject, body, recipients, attachments and the indicator-count
fields it returns exactly the same features as the dict holding the
explicit zero/empty defaults, and on empty text the two guarded divisions
(`avg_word_length`, `uppercase_ratio`) evaluate to 0 rather than failing. -/
theorem encode_is_total (e : EmailData) :
    (extract_all_features e).map Prod.fst = feature_names
    ∧ extract_all_features emptyEmailData = extract_all_features defaultFieldsEmailData
    ∧ (extract_text_features []).lookup "avg_word_length" = some 0
    ∧ (extract_text_features []).lookup "uppercase_ratio" = some 0
    ∧ (extract_all_features emptyEmailData).lookup "avg_word_length" = some 0
    ∧ (get_feature_names emptyEmailData).length = feature_names.length := by
  exact ⟨rfl, rfl, by decide, by decide, by decide, by decide⟩

/-! ### `extras/auto_retrain/auto_retrain.py`: the retraining pipeline

The database rows consumed by `prepare_training_data` are modelled by
`DbEmail` (nullable text columns as `Option`, the stored `is_phishing`
label, and the e-mail's stored indicator rows).  The artifact files on disk
are modelled by `ModelFS`, a map from paths (component lists) to file
bytes; `retrain_model`'s interaction with training is abstracted by
`train_outcome : Option (List Nat)` — `some artifact` when
`train_on_custom_data` returns successfully, `none` when it raises (the
`except Exception` branch of `retrain_model`, which returns `False` and
never reaches `save_model`). -/

structure DbEmail where
  subject : Option String
  sender : Option String
  body : Option String
  is_phishing : Bool
  iocs : List IocRec
deriving DecidableEq

/-- `ioc_counts.get(t, 0)` for the counts dict built in
`prepare_training_data` (`auto_retrain.py` 145-150). -/
def ioc_type_count (iocs : List IocRec) (t : String) : Nat :=
  (iocs.filter (fun i => i.ioc_type == t)).length

/-- The training-record dict built per e-mail by `prepare_training_data`
(`auto_retrain.py` 152-168).  Note `has_hash` sums only the md5 and sha256
counts. -/
def buildEmailData (email : DbEmail) : EmailData :=
  { sender := some (email.sender.getD "")
    subject := some (email.subject.getD "")
    body := some (email.body.getD "")
    recipients := none
    attachments := none
    headers := none
    full_text := some ((email.subject.getD "") ++ " " ++ (email.body.getD ""))
    ioc_count := some email.iocs.length
    has_ipv4 := some (decide (0 < ioc_type_count email.iocs "ipv4"))
    has_url := some (decide (0 < ioc_type_count email.iocs "url"))
    has_email := some (decide (0 < ioc_type_count email.iocs "email"))
    has_hash := some (decide
      (0 < ioc_type_count email.iocs "md5" + ioc_type_count email.iocs "sha256"))
    ipv4_count := some (ioc_type_count email.iocs "ipv4")
    url_count := some (ioc_type_count email.iocs "url")
    email_count := some (ioc_type_count email.iocs "email")
    domain_count := some (ioc_type_count email.iocs "domain") }

/-- The two abort conditions of `prepare_training_data` (both make it
return `None`; the printed reasons distinguish them). -/
inductive AbortReason where
  | insufficientData
  | unbalancedDataset
deriving DecidableEq

/-- `prepare_training_data` (`auto_retrain.py` 118-204): fewer than 4
records aborts with insufficient data; fewer than 2 records of either label
class aborts with an unbalanced dataset; otherwise the record dicts and
labels are returned. -/
def prepare_training_data (records : List DbEmail) :
    Except AbortReason (List EmailData × List Nat) :=
  if records.length < 4 then .error .insufficientData
  else
    let emails_data := records.map buildEmailData
    let labels := records.map (fun e => if e.is_phishing then (1 : Nat) else 0)
    let phishing_count := labels.sum
    let legitimate_count := labels.length - phishing_count
    if phishing_count < 2 ∨ legitimate_count < 2 then .error .unbalancedDataset
    else .ok (emails_data, labels)

/-- The `ValueError`s `train_on_custom_data` can raise
(`phishing_ml_model.py` 266-277). -/
inductive TrainDataError where
  | lengthMismatch
  | tooFewSamples
  | missingClassExamples
deriving DecidableEq

/-- The input validation of `train_on_custom_data`
(`phishing_ml_model.py` 254-277): `.ok ()` means the checks pass and the
function proceeds to fit the vectorizer and the classifier. -/
def train_on_custom_data_checks (emails_data : List EmailData) (labels : List Nat) :
    Except TrainDataError Unit :=
  if emails_data.length ≠ labels.length then .error .lengthMismatch
  else if emails_data.length < 4 then .error .tooFewSamples
  else
    let phishing_count := labels.sum
    let legitimate_count := labels.length - phishing_count
    if phishing_count < 2 ∨ legitimate_count < 2 then .error .missingClassExamples
    else .ok ()

/-- File systems holding model artifacts: path components to file bytes. -/
abbrev ModelFS := List String → Option (List Nat)

/-- `self.model_path = models/simple_ml_model.pkl` (`auto_retrain.py` 58-60). -/
def model_path : List String := ["models", "simple_ml_model.pkl"]

/-- `self.backup_dir / f'model_backup_{timestamp}.pkl'`
(`auto_retrain.py` 61-62, 109-110). -/
def backup_path (timestamp : String) : List String :=
  ["models", "backups", "model_backup_" ++ timestamp ++ ".pkl"]

/-- `backup_current_model` (`auto_retrain.py` 103-116): a no-op when no
live model exists, otherwise `shutil.copy2` of the live artifact to the
timestamped backup path. -/
def backup_current_model (timestamp : String) (fs : ModelFS) : ModelFS :=
  match fs model_path with
  | none => fs
  | some bytes => fun p => if p = backup_path timestamp then some bytes else fs p

/-- `SimplePhishingML.save_model` at the live path
(`phishing_ml_model.py` 356-367, called at `auto_retrain.py` 266). -/
def save_model (artifact : List Nat) (fs : ModelFS) : ModelFS :=
  fun p => if p = model_path then some artifact else fs p

/-- `retrain_model` (`auto_retrain.py` 206-284) as a file-system
transformer: gate on the retraining check, abort on `prepare_training_data`
failure, back up, then train; on a training exception (`train_outcome =
none`) return `False` without saving; on success save the new artifact to
the live path and return `True`. -/
def retrain_model (check_ok : Bool) (records : List DbEmail) (timestamp : String)
    (train_outcome : Option (List Nat)) (fs : ModelFS) : ModelFS × Bool :=
  if !check_ok then (fs, false)
  else
    match prepare_training_data records with
    | .error _ => (fs, false)
    | .ok _ =>
      let fs1 := backup_current_model timestamp fs
      match train_outcome with
      | none => (fs1, false)
      | some artifact => (save_model artifact fs1, true)

/-- Four balanced records (labels 1,1,0,0). -/
def demo_records_balanced : List DbEmail :=
  [⟨some "Win a prize", some "a@bad.tk", some "click here", true, []⟩,
   ⟨some "Verify now", some "b@bad.tk", some "urgent", true, []⟩,
   ⟨some "Team lunch", some "c@ok.com", some "see you at noon", false, []⟩,
   ⟨some "Minutes", some "d@ok.com", some "attached", false, []⟩]

/-- Four unbalanced records (labels 1,1,1,0). -/
def demo_records_unbalanced : List DbEmail :=
  [⟨some "Win a prize", some "a@bad.tk", some "click here", true, []⟩,
   ⟨some "Verify now", some "b@bad.tk", some "urgent", true, []⟩,
   ⟨some "Act now", some "c@bad.tk", some "expires", true, []⟩,
   ⟨some "Minutes", some "d@ok.com", some "attached", false, []⟩]

/-- Three records: below the minimum of four. -/
def demo_records_short : List DbEmail :=
  [⟨some "Win a prize", some "a@bad.tk", some "click here", true, []⟩,
   ⟨some "Team lunch", some "c@ok.com", some "see you at noon", false, []⟩,
   ⟨some "Minutes", some "d@ok.com", some "attached", false, []⟩]

/-- A file system with a live model artifact and nothing else. -/
def demo_fs : ModelFS := fun p => if p = model_path then some [1, 2, 3] else none

/-- Claim C2: for every retrain run that reaches the training step
(`prepare_training_data` succeeded) while a live artifact exists, the
artifact's bytes are copied to the timestamped backup path — a path
distinct from the live path — before training begins (the state
`backup_current_model timestamp fs` is exactly the state training starts
from), the live path still holds the artifact at that point, and if the
training step raises (`train_outcome = none`) the run returns `False` with
the live path's bytes unchanged, the save step having been skipped. -/
theorem retrain_backup_and_failed_training_preserve_live
    (records : List DbEmail) (timestamp : String) (fs : ModelFS) (bytes : List Nat)
    (hprep : ∃ d, prepare_training_data records = Except.ok d)
    (hlive : fs model_path = some bytes) :
    backup_path timestamp ≠ model_path
    ∧ (backup_current_model timestamp fs) (backup_path timestamp) = some bytes
    ∧ (backup_current_model timestamp fs) model_path = some bytes
    ∧ (retrain_model true records timestamp none fs).1 model_path = some bytes
    ∧ (retrain_model true records timestamp none fs).2 = false := by
  obtain ⟨d, hd⟩ := hprep
  have hne : backup_path timestamp ≠ model_path := by
    intro h
    have := congrArg List.length h
    simp [backup_path, model_path] at this
  have hb : (backup_current_model timestamp fs) (backup_path timestamp) = some bytes := by
    unfold backup_current_model
    rw [hlive]
    simp
  have hbl : (backup_current_model timestamp fs) model_path = some bytes := by
    unfold backup_current_model
    rw [hlive]
    simp [hne, hlive]
  have hr : retrain_model true records timestamp none fs =
      (backup_current_model timestamp fs, false) := by
    unfold retrain_model
    rw [hd]
    rfl
  refine ⟨hne, hb, hbl, ?_, ?_⟩
  · rw [hr]
    exact hbl
  · rw [hr]

/-- Witness for C2 on a concrete balanced record set, file system and
timestamp. -/
theorem retrain_backup_witness :
    (backup_current_model "20240101_020000" demo_fs) (backup_path "20240101_020000") =
      some [1, 2, 3]
    ∧ (retrain_model true demo_records_balanced "20240101_020000" none demo_fs).1
        model_path = some [1, 2, 3]
    ∧ (retrain_model true demo_records_balanced "20240101_020000" none demo_fs).2 =
      false := by
  have h := retrain_backup_and_failed_training_preserve_live
    demo_records_balanced "20240101_020000" demo_fs [1, 2, 3]
    ⟨_, rfl⟩ (by decide)
  exact ⟨h.2.1, h.2.2.2.1, h.2.2.2.2⟩

/-- The label sum computed by `prepare_training_data` is the number of
records stored as phishing. -/
theorem labels_sum_eq_phishing_count (records : List DbEmail) :
    (records.map (fun e => if e.is_phishing then (1 : Nat) else 0)).sum =
      (records.filter (fun r => r.is_phishing)).length := by
  induction records with
  | nil => simp
  | cons r rest ih =>
    by_cases h : r.is_phishing <;> simp [h, ih, Nat.add_comm]

/-- Claim C9: retraining aborts — without training or saving, leaving the
file system untouched — with `InsufficientData` when fewer than 4 records
exist and with `UnbalancedDataset` when either label class has fewer than
2 records; and whenever `prepare_training_data` succeeds, its output passes
every input check of `train_on_custom_data` (so the run proceeds to
training).  In particular labels `[1,1,1,0]` abort unbalanced while
`[1,1,0,0]` proceed. -/
theorem retrain_aborts_on_bad_data
    (records : List DbEmail) (timestamp : String) (outcome : Option (List Nat))
    (fs : ModelFS) :
    (records.length < 4 →
      prepare_training_data records = .error .insufficientData
      ∧ retrain_model true records timestamp outcome fs = (fs, false))
    ∧ (4 ≤ records.length →
      ((records.filter (fun r => r.is_phishing)).length < 2
        ∨ records.length - (records.filter (fun r => r.is_phishing)).length < 2) →
      prepare_training_data records = .error .unbalancedDataset
      ∧ retrain_model true records timestamp outcome fs = (fs, false))
    ∧ (∀ d, prepare_training_data records = Except.ok d →
        train_on_custom_data_checks d.1 d.2 = .ok ())
    ∧ prepare_training_data demo_records_unbalanced = .error .unbalancedDataset
    ∧ (retrain_model true demo_records_balanced timestamp (some [0]) fs).2 = true := by
  refine ⟨fun h4 => ?_, fun h4 hbal => ?_, fun d hd => ?_, rfl, rfl⟩
  · have hp : prepare_training_data records = .error .insufficientData := by
      unfold prepare_training_data
      rw [if_pos h4]
    refine ⟨hp, ?_⟩
    unfold retrain_model
    rw [hp]
    rfl
  · have hbal' : (records.map (fun e => if e.is_phishing then (1 : Nat) else 0)).sum < 2
        ∨ (records.map (fun e => if e.is_phishing then (1 : Nat) else 0)).length -
            (records.map (fun e => if e.is_phishing then (1 : Nat) else 0)).sum < 2 := by
      rw [labels_sum_eq_phishing_count, List.length_map]
      exact hbal
    have hp : prepare_training_data records = .error .unbalancedDataset := by
      unfold prepare_training_data
      rw [if_neg (by omega), if_pos hbal']
    refine ⟨hp, ?_⟩
    unfold retrain_model
    rw [hp]
    rfl
  · unfold prepare_training_data at hd
    by_cases h4 : records.length < 4
    · rw [if_pos h4] at hd
      exact absurd hd (by simp)
    · rw [if_neg h4] at hd
      by_cases hbal : (records.map (fun e => if e.is_phishing then (1 : Nat) else 0)).sum < 2
          ∨ (records.map (fun e => if e.is_phishing then (1 : Nat) else 0)).length -
              (records.map (fun e => if e.is_phishing then (1 : Nat) else 0)).sum < 2
      · rw [if_pos hbal] at hd
        exact absurd hd (by simp)
      · rw [if_neg hbal] at hd
        have hd' : d = (records.map buildEmailData,
            records.map (fun e => if e.is_phishing then (1 : Nat) else 0)) :=
          (Except.ok.inj hd).symm
        subst hd'
        unfold train_on_custom_data_checks
        rw [if_neg (by simp), if_neg (by simp; omega), if_neg (by simpa using hbal)]

/-- Witness for C9: three records abort insufficient; the 1,1,1,0 set
aborts unbalanced, in both cases leaving the file system unchanged. -/
theorem retrain_aborts_witness :
    prepare_training_data demo_records_short = .error .insufficientData
    ∧ retrain_model true demo_records_short "t" none demo_fs = (demo_fs, false)
    ∧ prepare_training_data demo_records_unbalanced = .error .unbalancedDataset
    ∧ retrain_model true demo_records_unbalanced "t" none demo_fs = (demo_fs, false) := by
  have h1 := retrain_aborts_on_bad_data demo_records_short "t" none demo_fs
  have h2 := retrain_aborts_on_bad_data demo_records_unbalanced "t" none demo_fs
  exact ⟨(h1.1 (by decide)).1, (h1.1 (by decide)).2,
    (h2.2.1 (by decide) (by decide)).1, (h2.2.1 (by decide) (by decide)).2⟩

/-- Claim C10: in the training records assembled by
`prepare_training_data`, the `has_hash` flag depends only on the md5 and
sha256 counts: an e-mail whose stored hash-type indicators are exclusively
sha1 gets `has_hash = false`, although `sha1` is one of the extractor's
pattern types (so sha1 indicators are produced and stored) and a hash type
in the detection rule's own list. -/
theorem has_hash_flag_ignores_sha1 (email : DbEmail)
    (honly : ∀ i ∈ email.iocs, i.ioc_type ∈ hash_ioc_types → i.ioc_type = "sha1")
    (_hsome : ∃ i ∈ email.iocs, i.ioc_type = "sha1") :
    (buildEmailData email).has_hash = some false
    ∧ "sha1" ∈ extractor_pattern_types
    ∧ "sha1" ∈ hash_ioc_types := by
  refine ⟨?_, by decide, by decide⟩
  have hmd5 : ioc_type_count email.iocs "md5" = 0 := by
    unfold ioc_type_count
    rw [List.length_eq_zero, List.filter_eq_nil_iff]
    intro i hi hcontra
    have : i.ioc_type = "md5" := by simpa using hcontra
    have h1 := honly i hi (by rw [this]; decide)
    rw [this] at h1
    exact absurd h1 (by decide)
  have hsha256 : ioc_type_count email.iocs "sha256" = 0 := by
    unfold ioc_type_count
    rw [List.length_eq_zero, List.filter_eq_nil_iff]
    intro i hi hcontra
    have : i.ioc_type = "sha256" := by simpa using hcontra
    have h1 := honly i hi (by rw [this]; decide)
    rw [this] at h1
    exact absurd h1 (by decide)
  show some (decide
    (0 < ioc_type_count email.iocs "md5" + ioc_type_count email.iocs "sha256")) = some false
  rw [hmd5, hsha256]
  rfl

/-- Witness for C10 on an e-mail storing exactly one sha1 indicator. -/
theorem has_hash_flag_ignores_sha1_witness :
    (buildEmailData ⟨some "s", some "a@b.com", some "b", true,
      [⟨"sha1", "da39a3ee5e6b4b0d3255bfef95601890afd80709", "high"⟩]⟩).has_hash =
      some false := by
  have h := has_hash_flag_ignores_sha1
    ⟨some "s", some "a@b.com", some "b", true,
      [⟨"sha1", "da39a3ee5e6b4b0d3255bfef95601890afd80709", "high"⟩]⟩
    (by decide) ⟨⟨"sha1", "da39a3ee5e6b4b0d3255bfef95601890afd80709", "high"⟩,
      by decide, rfl⟩
  exact h.1

/-! ### `backend/utils/ioc_extractor.py`: the IPv4 matcher of `extract_iocs`

The pattern is
`\b(?:(?:25[0-5]|2[0-4][0-9]|[01]?[0-9][0-9]?)\.){3}(?:25[0-5]|2[0-4][0-9]|[01]?[0-9][0-9]?)\b`
compiled with `re.IGNORECASE` (irrelevant: no letters).  `octetSplits` lists
the octet alternation's candidate matches in the engine's backtracking
preference order (first alternative first; within the third alternative the
greedy optionals try the present form first).  Because every candidate
consists solely of digits, at most one candidate can be followed by the next
mandatory `.` — and at most one can satisfy the final `\b` — so committing
to the first viable candidate (`pickDot` / `pickEnd`) is exactly the
backtracking engine's behaviour for this pattern. -/

/-- The candidate matches of `25[0-5]|2[0-4][0-9]|[01]?[0-9][0-9]?` at the
head of `cs`, as (matched, rest) pairs in backtracking preference order. -/
def octetSplits (cs : List Char) : List (List Char × List Char) :=
  let c0 := cs.getD 0 ' '
  let c1 := cs.getD 1 ' '
  let c2 := cs.getD 2 ' '
  (if c0 == '2' && c1 == '5' && ('0' ≤ c2 && c2 ≤ '5') then
    [(cs.take 3, cs.drop 3)] else [])
  ++ (if c0 == '2' && ('0' ≤ c1 && c1 ≤ '4') && isDigitCh c2 then
    [(cs.take 3, cs.drop 3)] else [])
  ++ (if (c0 == '0' || c0 == '1') && isDigitCh c1 && isDigitCh c2 then
    [(cs.take 3, cs.drop 3)] else [])
  ++ (if (c0 == '0' || c0 == '1') && isDigitCh c1 then
    [(cs.take 2, cs.drop 2)] else [])
  ++ (if isDigitCh c0 && isDigitCh c1 then [(cs.take 2, cs.drop 2)] else [])
  ++ (if isDigitCh c0 then [(cs.take 1, cs.drop 1)] else [])

/-- Accept an octet candidate if the mandatory `.` follows; consume it. -/
def dotStep : List Char × List Char → Option (List Char × List Char)
  | (_, []) => none
  | (m, c :: r) => if c == '.' then some (m ++ [c], r) else none

/-- Accept an octet candidate if its right edge satisfies the final `\b`
(end of text or a non-word character; the left side is always a digit). -/
def endStep : List Char × List Char → Option (List Char × List Char)
  | (m, []) => some (m, [])
  | (m, c :: r) => if isWordCh c then none else some (m, c :: r)

/-- First octet candidate followed by the mandatory `.`. -/
def pickDot (cands : List (List Char × List Char)) : Option (List Char × List Char) :=
  cands.findSome? dotStep

/-- First octet candidate satisfying the final `\b`. -/
def pickEnd (cands : List (List Char × List Char)) : Option (List Char × List Char) :=
  cands.findSome? endStep

/-- A match of the quad `(octet\.){3}octet\b` at the head of `cs`:
the matched text and the remainder. -/
def matchQuad (cs : List Char) : Option (List Char × List Char) :=
  match pickDot (octetSplits cs) with
  | none => none
  | some (m1, r1) =>
    match pickDot (octetSplits r1) with
    | none => none
    | some (m2, r2) =>
      match pickDot (octetSplits r2) with
      | none => none
      | some (m3, r3) =>
        match pickEnd (octetSplits r3) with
        | none => none
        | some (m4, r4) => some (m1 ++ m2 ++ m3 ++ m4, r4)

/-- Recursion core of `scanIPv4` — `re.findall` over the text: at each
position whose left side satisfies `\b` (tracked by `prev`, whether the
previous character is a word character; a match can only start on a digit,
so `prev = true` excludes a match) try the quad; on success record it and
continue right after it (non-overlapping), else advance one character.
`fuel` bounds the recursion and never runs out when started at the text's
length, since every step consumes at least one character. -/
def scanIPv4Aux : Nat → Bool → List Char → List (List Char)
  | 0, _, _ => []
  | _ + 1, _, [] => []
  | fuel + 1, prev, c :: rest =>
    if prev then scanIPv4Aux fuel (isWordCh c) rest
    else
      match matchQuad (c :: rest) with
      | some (m, r) => m :: scanIPv4Aux fuel true r
      | none => scanIPv4Aux fuel (isWordCh c) rest

/-- `re.findall(patterns['ipv4'], text, re.IGNORECASE)`
(`ioc_extractor.py` 35). -/
def scanIPv4 (text : List Char) : List (List Char) :=
  scanIPv4Aux text.length false text

/-- Recursion core of `dedupFirst`: `seen` is the key set of the dict being
built by `dict.fromkeys`. -/
def dedupFirstAux (seen : List (List Char)) : List (List Char) → List (List Char)
  | [] => []
  | x :: xs =>
    if x ∈ seen then dedupFirstAux seen xs else x :: dedupFirstAux (x :: seen) xs

/-- `list(dict.fromkeys(matches))` (`ioc_extractor.py` 37): duplicates
removed, first-occurrence order preserved. -/
def dedupFirst (l : List (List Char)) : List (List Char) := dedupFirstAux [] l

/-- The `ipv4` entry of `extract_iocs` (`ioc_extractor.py` 22-41): the
deduplicated matches of the IPv4 pattern. -/
def extract_iocs_ipv4 (text : List Char) : List (List Char) :=
  dedupFirst (scanIPv4 text)

/-! Vocabulary for stating the claim: texts built from space-separated
tokens, each either a valid dotted quad (in the pattern's octet language)
or free of digits. -/

/-- Membership in the octet language `25[0-5]|2[0-4][0-9]|[01]?[0-9][0-9]?`
(entire-string match). -/
def isOctetStr : List Char → Bool
  | [a] => isDigitCh a
  | [a, b] => isDigitCh a && isDigitCh b
  | [a, b, c] =>
    (a == '2' && b == '5' && ('0' ≤ c && c ≤ '5'))
    || (a == '2' && ('0' ≤ b && b ≤ '4') && isDigitCh c)
    || ((a == '0' || a == '1') && isDigitCh b && isDigitCh c)
  | _ => false

/-- Split a string at every `.` (the parts between dots, in order). -/
def splitDot : List Char → List (List Char)
  | [] => [[]]
  | c :: rest =>
    if c == '.' then [] :: splitDot rest
    else
      match splitDot rest with
      | p :: ps => (c :: p) :: ps
      | [] => [[c]]

/-- Rejoin dot-separated parts. -/
def joinDots : List (List Char) → List Char
  | [] => []
  | [p] => p
  | p :: ps => p ++ '.' :: joinDots ps

/-- A valid dotted-quad IPv4 string: exactly four dot-separated parts, each
in the pattern's octet language. -/
def isQuadStr (cs : List Char) : Bool :=
  match splitDot cs with
  | [o1, o2, o3, o4] => isOctetStr o1 && isOctetStr o2 && isOctetStr o3 && isOctetStr o4
  | _ => false

/-- Does the right edge of a match satisfy `\b` against this remainder? -/
def boundaryOk : List Char → Bool
  | [] => true
  | c :: _ => !isWordCh c

/-- A token with no digit characters (so no IPv4 match can begin inside it). -/
def noDigits (t : List Char) : Bool := t.all (fun c => !isDigitCh c)

/-- Space-separated token text. -/
def joinTokens : List (List Char) → List Char
  | [] => []
  | [t] => t
  | t :: ts => t ++ ' ' :: joinTokens ts

/-! #### Properties of `dedupFirst` -/

theorem dedupFirstAux_mem (l : List (List Char)) :
    ∀ seen a, a ∈ dedupFirstAux seen l ↔ a ∈ l ∧ a ∉ seen := by
  induction l with
  | nil => simp [dedupFirstAux]
  | cons x xs ih =>
    intro seen a
    by_cases hx : x ∈ seen
    · rw [dedupFirstAux, if_pos hx, ih]
      constructor
      · exact fun ⟨h1, h2⟩ => ⟨List.mem_cons_of_mem _ h1, h2⟩
      · rintro ⟨h1, h2⟩
        rcases List.mem_cons.mp h1 with rfl | h1
        · exact absurd hx h2
        · exact ⟨h1, h2⟩
    · rw [dedupFirstAux, if_neg hx]
      constructor
      · intro h
        rcases List.mem_cons.mp h with rfl | h
        · exact ⟨List.mem_cons_self _ _, hx⟩
        · have := (ih (x :: seen) a).mp h
          exact ⟨List.mem_cons_of_mem _ this.1,
            fun hc => this.2 (List.mem_cons_of_mem _ hc)⟩
      · rintro ⟨h1, h2⟩
        rcases List.mem_cons.mp h1 with rfl | h1
        · exact List.mem_cons_self _ _
        · by_cases hax : a = x
          · subst hax
            exact List.mem_cons_self _ _
          · exact List.mem_cons_of_mem _ ((ih (x :: seen) a).mpr
              ⟨h1, fun hc => (List.mem_cons.mp hc).elim hax h2⟩)

theorem dedupFirstAux_nodup (l : List (List Char)) :
    ∀ seen, (dedupFirstAux seen l).Nodup := by
  induction l with
  | nil => intro seen; simp [dedupFirstAux]
  | cons x xs ih =>
    intro seen
    by_cases hx : x ∈ seen
    · rw [dedupFirstAux, if_pos hx]
      exact ih seen
    · rw [dedupFirstAux, if_neg hx]
      refine List.Nodup.cons ?_ (ih (x :: seen))
      intro hc
      exact ((dedupFirstAux_mem xs (x :: seen) x).mp hc).2 (List.mem_cons_self _ _)

theorem dedupFirstAux_sublist (l : List (List Char)) :
    ∀ seen, List.Sublist (dedupFirstAux seen l) l := by
  induction l with
  | nil => intro seen; simp [dedupFirstAux]
  | cons x xs ih =>
    intro seen
    by_cases hx : x ∈ seen
    · rw [dedupFirstAux, if_pos hx]
      exact (ih seen).cons x
    · rw [dedupFirstAux, if_neg hx]
      exact (ih (x :: seen)).cons₂ x

theorem dedupFirst_mem (l : List (List Char)) (a : List Char) :
    a ∈ dedupFirst l ↔ a ∈ l := by
  rw [dedupFirst, dedupFirstAux_mem]
  simp

theorem dedupFirst_nodup (l : List (List Char)) : (dedupFirst l).Nodup :=
  dedupFirstAux_nodup l []

theorem dedupFirst_sublist (l : List (List Char)) :
    List.Sublist (dedupFirst l) l :=
  dedupFirstAux_sublist l []

theorem dedupFirst_length (l : List (List Char)) :
    (dedupFirst l).length = l.toFinset.card := by
  have h1 : (dedupFirst l).toFinset = l.toFinset := by
    apply Finset.ext
    intro a
    simp [List.mem_toFinset, dedupFirst_mem]
  rw [← h1, List.toFinset_card_of_nodup (dedupFirst_nodup l)]

/-! #### Structure of `octetSplits` and `matchQuad` matches -/

theorem mem_ite_singleton {α : Type} {c : Bool} {x a : α}
    (h : a ∈ if c = true then [x] else []) : a = x := by
  by_cases hc : c = true
  · rw [if_pos hc] at h
    exact List.mem_singleton.mp h
  · rw [if_neg hc] at h
    exact absurd h (List.not_mem_nil a)

theorem octetSplits_structure (cs : List Char) :
    ∀ p ∈ octetSplits cs, cs = p.1 ++ p.2 ∧ p.1 ≠ [] := by
  rcases cs with _ | ⟨c, cs'⟩
  · intro p hp
    rw [show octetSplits [] = [] from rfl] at hp
    exact absurd hp (List.not_mem_nil p)
  · intro p hp
    have htd : ∀ k : Nat, 1 ≤ k →
        p = ((c :: cs').take k, (c :: cs').drop k) →
        (c :: cs') = p.1 ++ p.2 ∧ p.1 ≠ [] := by
      rintro k hk rfl
      refine ⟨(List.take_append_drop k (c :: cs')).symm, ?_⟩
      rcases k with _ | k
      · omega
      · simp
    rw [octetSplits] at hp
    rcases List.mem_append.mp hp with hp | h
    swap
    · exact htd 1 (by omega) (mem_ite_singleton h)
    rcases List.mem_append.mp hp with hp | h
    swap
    · exact htd 2 (by omega) (mem_ite_singleton h)
    rcases List.mem_append.mp hp with hp | h
    swap
    · exact htd 2 (by omega) (mem_ite_singleton h)
    rcases List.mem_append.mp hp with hp | h
    swap
    · exact htd 3 (by omega) (mem_ite_singleton h)
    rcases List.mem_append.mp hp with hp | h
    swap
    · exact htd 3 (by omega) (mem_ite_singleton h)
    exact htd 3 (by omega) (mem_ite_singleton hp)

theorem pickDot_structure (cs : List Char) (m r : List Char)
    (h : pickDot (octetSplits cs) = some (m, r)) : cs = m ++ r ∧ m ≠ [] := by
  obtain ⟨p, hp, hf⟩ := List.exists_of_findSome?_eq_some h
  obtain ⟨p1, p2⟩ := p
  obtain ⟨hsplit, hne⟩ := octetSplits_structure cs (p1, p2) hp
  rcases p2 with _ | ⟨c, r'⟩
  · simp [dotStep] at hf
  · rw [dotStep] at hf
    by_cases hc : c == '.'
    · rw [if_pos hc] at hf
      obtain ⟨hm, hr⟩ := Prod.mk.inj (Option.some.inj hf)
      subst hm hr
      constructor
      · rw [hsplit]
        simp
      · simp
    · rw [if_neg hc] at hf
      simp at hf

theorem pickEnd_structure (cs : List Char) (m r : List Char)
    (h : pickEnd (octetSplits cs) = some (m, r)) : cs = m ++ r ∧ m ≠ [] := by
  obtain ⟨p, hp, hf⟩ := List.exists_of_findSome?_eq_some h
  obtain ⟨p1, p2⟩ := p
  obtain ⟨hsplit, hne⟩ := octetSplits_structure cs (p1, p2) hp
  rcases p2 with _ | ⟨c, r'⟩
  · rw [endStep] at hf
    obtain ⟨hm, hr⟩ := Prod.mk.inj (Option.some.inj hf)
    subst hm hr
    exact ⟨hsplit, hne⟩
  · rw [endStep] at hf
    by_cases hc : isWordCh c
    · rw [if_pos hc] at hf
      simp at hf
    · rw [if_neg hc] at hf
      obtain ⟨hm, hr⟩ := Prod.mk.inj (Option.some.inj hf)
      subst hm hr
      exact ⟨hsplit, hne⟩

theorem matchQuad_structure (cs : List Char) (m r : List Char)
    (h : matchQuad cs = some (m, r)) : cs = m ++ r ∧ m ≠ [] := by
  unfold matchQuad at h
  rcases h1 : pickDot (octetSplits cs) with _ | ⟨m1, r1⟩
  · rw [h1] at h
    exact absurd h (by simp)
  · rw [h1] at h
    dsimp only at h
    rcases h2 : pickDot (octetSplits r1) with _ | ⟨m2, r2⟩
    · rw [h2] at h
      exact absurd h (by simp)
    · rw [h2] at h
      dsimp only at h
      rcases h3 : pickDot (octetSplits r2) with _ | ⟨m3, r3⟩
      · rw [h3] at h
        exact absurd h (by simp)
      · rw [h3] at h
        dsimp only at h
        rcases h4 : pickEnd (octetSplits r3) with _ | ⟨m4, r4⟩
        · rw [h4] at h
          exact absurd h (by simp)
        · rw [h4] at h
          dsimp only at h
          obtain ⟨hm, hr⟩ := Prod.mk.inj (Option.some.inj h)
          subst hm hr
          obtain ⟨e1, ne1⟩ := pickDot_structure cs m1 r1 h1
          obtain ⟨e2, _⟩ := pickDot_structure r1 m2 r2 h2
          obtain ⟨e3, _⟩ := pickDot_structure r2 m3 r3 h3
          obtain ⟨e4, _⟩ := pickEnd_structure r3 m4 r4 h4
          constructor
          · rw [e1, e2, e3, e4]
            simp [List.append_assoc]
          · simp [ne1]

/-! #### The scanner: fuel irrelevance and step equations -/

theorem scanIPv4Aux_nil (fuel : Nat) (prev : Bool) : scanIPv4Aux fuel prev [] = [] := by
  cases fuel <;> rfl

theorem scanIPv4Aux_fuel : ∀ (f1 f2 : Nat) (prev : Bool) (cs : List Char),
    cs.length ≤ f1 → cs.length ≤ f2 →
    scanIPv4Aux f1 prev cs = scanIPv4Aux f2 prev cs := by
  intro f1
  induction f1 with
  | zero =>
    intro f2 prev cs h1 _
    obtain rfl : cs = [] := List.length_eq_zero.mp (Nat.le_zero.mp h1)
    rw [scanIPv4Aux_nil, scanIPv4Aux_nil]
  | succ g ih =>
    intro f2 prev cs h1 h2
    rcases cs with _ | ⟨c, rest⟩
    · rw [scanIPv4Aux_nil, scanIPv4Aux_nil]
    · rcases f2 with _ | g2
      · simp at h2
      · have hrest1 : rest.length ≤ g := by
          simp at h1
          omega
        have hrest2 : rest.length ≤ g2 := by
          simp at h2
          omega
        rw [scanIPv4Aux, scanIPv4Aux]
        cases prev
        · rcases hm : matchQuad (c :: rest) with _ | ⟨m, r⟩
          · simp only [hm, Bool.false_eq_true, if_false]
            exact ih g2 (isWordCh c) rest hrest1 hrest2
          · simp only [hm, Bool.false_eq_true, if_false]
            have hr : r.length ≤ rest.length := by
              obtain ⟨e, ne⟩ := matchQuad_structure _ _ _ hm
              have hl := congrArg List.length e
              simp [List.length_append] at hl
              have : 1 ≤ m.length := List.length_pos.mpr ne
              omega
            exact congrArg (m :: ·)
              (ih g2 true r (le_trans hr hrest1) (le_trans hr hrest2))
        · simp only [if_true]
          exact ih g2 (isWordCh c) rest hrest1 hrest2

/-- The scanner with exactly enough fuel (helper for the proofs). -/
def scanA (prev : Bool) (cs : List Char) : List (List Char) :=
  scanIPv4Aux cs.length prev cs

theorem scanIPv4_eq_scanA (text : List Char) : scanIPv4 text = scanA false text := rfl

theorem scanA_cons_prev (c : Char) (rest : List Char) :
    scanA true (c :: rest) = scanA (isWordCh c) rest := rfl

theorem scanA_cons_match (c : Char) (rest m r : List Char)
    (h : matchQuad (c :: rest) = some (m, r)) :
    scanA false (c :: rest) = m :: scanA true r := by
  have hr : r.length ≤ rest.length := by
    obtain ⟨e, ne⟩ := matchQuad_structure _ _ _ h
    have hl := congrArg List.length e
    simp [List.length_append] at hl
    have : 1 ≤ m.length := List.length_pos.mpr ne
    omega
  show scanIPv4Aux (c :: rest).length false (c :: rest) = _
  simp only [List.length_cons]
  rw [scanIPv4Aux]
  simp only [h, Bool.false_eq_true, if_false]
  exact congrArg (m :: ·) (scanIPv4Aux_fuel rest.length r.length true r hr le_rfl)

theorem scanA_cons_none (prev : Bool) (c : Char) (rest : List Char)
    (h : matchQuad (c :: rest) = none) :
    scanA prev (c :: rest) = scanA (isWordCh c) rest := by
  cases prev
  · show scanIPv4Aux (c :: rest).length false (c :: rest) = _
    simp only [List.length_cons]
    rw [scanIPv4Aux]
    simp only [h, Bool.false_eq_true, if_false]
    rfl
  · exact scanA_cons_prev c rest

/-! #### Matching a well-formed octet

`pickDot` / `pickEnd` on `octetSplits` of an octet followed by a dot
(resp. by a word boundary) succeed and consume exactly the octet. -/

theorem ne_digit_of_not_digit {c d : Char} (hc : isDigitCh c = false)
    (hd : isDigitCh d = true) : c ≠ d := by
  intro h
  subst h
  rw [hc] at hd
  exact absurd hd (by simp)

theorem not_range_of_not_digit {c e : Char} (hc : isDigitCh c = false)
    (h9 : e ≤ '9') : ¬('0' ≤ c ∧ c ≤ e) := by
  rintro ⟨l1, l2⟩
  have hdig : isDigitCh c = true := by
    unfold isDigitCh
    rw [decide_eq_true l1, decide_eq_true (le_trans l2 h9)]
    rfl
  rw [hc] at hdig
  exact absurd hdig (by simp)

theorem pickDot_octet (o t : List Char) (ho : isOctetStr o = true) :
    pickDot (octetSplits (o ++ '.' :: t)) = some (o ++ ['.'], t) := by
  rcases o with _ | ⟨a, _ | ⟨b, _ | ⟨c, _ | ⟨d, o'⟩⟩⟩⟩
  · rw [show isOctetStr [] = false from rfl] at ho
    exact absurd ho (by simp)
  · have ha : isDigitCh a = true := ho
    show pickDot (octetSplits (a :: '.' :: t)) = some ([a, '.'], t)
    simp [octetSplits, pickDot, dotStep, List.findSome?, ha,
      show isDigitCh '.' = false from by decide]
  · have hab : (isDigitCh a && isDigitCh b) = true := ho
    obtain ⟨ha, hb⟩ := Bool.and_eq_true_iff.mp hab
    show pickDot (octetSplits (a :: b :: '.' :: t)) = some ([a, b, '.'], t)
    by_cases h01 : a = '0' ∨ a = '1' <;>
      simp [octetSplits, pickDot, dotStep, List.findSome?, ha, hb, h01,
        show isDigitCh '.' = false from by decide]
  · show pickDot (octetSplits (a :: b :: c :: '.' :: t)) = some ([a, b, c, '.'], t)
    have ho3 := ho
    simp only [isOctetStr, Bool.or_eq_true, Bool.and_eq_true_iff, beq_iff_eq,
      decide_eq_true_eq] at ho3
    rcases ho3 with ((⟨⟨ha2, hb5⟩, hc0, hc5⟩ | ⟨⟨ha2, hb0, hb4⟩, hc⟩) | ⟨⟨h01, hb⟩, hc⟩)
    · subst ha2 hb5
      simp [octetSplits, pickDot, dotStep, List.findSome?, hc0, hc5]
    · subst ha2
      have hb5 : b ≠ '5' := by
        intro h
        subst h
        exact absurd hb4 (by decide)
      simp [octetSplits, pickDot, dotStep, List.findSome?, hb0, hb4, hb5, hc]
    · rcases h01 with rfl | rfl <;>
        simp [octetSplits, pickDot, dotStep, List.findSome?, hb, hc]
  · rw [show isOctetStr (a :: b :: c :: d :: o') = false from rfl] at ho
    exact absurd ho (by simp)

theorem pickEnd_octet (o t : List Char) (ho : isOctetStr o = true)
    (hb : boundaryOk t = true) :
    pickEnd (octetSplits (o ++ t)) = some (o, t) := by
  rcases t with _ | ⟨c', t'⟩
  · have hend : endStep (o, ([] : List Char)) = some (o, []) := rfl
    rcases o with _ | ⟨a, _ | ⟨b, _ | ⟨c, _ | ⟨d, o'⟩⟩⟩⟩
    · rw [show isOctetStr [] = false from rfl] at ho
      exact absurd ho (by simp)
    · have ha : isDigitCh a = true := ho
      show pickEnd (octetSplits [a]) = some ([a], [])
      simp [octetSplits, pickEnd, List.findSome?, ha, hend,
        show isDigitCh ' ' = false from by decide]
    · have hab : (isDigitCh a && isDigitCh b) = true := ho
      obtain ⟨ha, hb2⟩ := Bool.and_eq_true_iff.mp hab
      show pickEnd (octetSplits [a, b]) = some ([a, b], [])
      by_cases h01 : a = '0' ∨ a = '1' <;>
        simp [octetSplits, pickEnd, List.findSome?, ha, hb2, h01, hend,
          show isDigitCh ' ' = false from by decide]
    · show pickEnd (octetSplits [a, b, c]) = some ([a, b, c], [])
      have ho3 := ho
      simp only [isOctetStr, Bool.or_eq_true, Bool.and_eq_true_iff, beq_iff_eq,
        decide_eq_true_eq] at ho3
      rcases ho3 with ((⟨⟨ha2, hb5⟩, hc0, hc5⟩ | ⟨⟨ha2, hb0, hb4⟩, hc⟩) | ⟨⟨h01, hb2⟩, hc⟩)
      · subst ha2 hb5
        simp [octetSplits, pickEnd, List.findSome?, hc0, hc5, hend]
      · subst ha2
        have hb5 : b ≠ '5' := by
          intro h
          subst h
          exact absurd hb4 (by decide)
        simp [octetSplits, pickEnd, List.findSome?, hb0, hb4, hb5, hc, hend]
      · rcases h01 with rfl | rfl <;>
          simp [octetSplits, pickEnd, List.findSome?, hb2, hc, hend]
    · rw [show isOctetStr (a :: b :: c :: d :: o') = false from rfl] at ho
      exact absurd ho (by simp)
  · rw [boundaryOk] at hb
    have hw : isWordCh c' = false := by simpa using hb
    have hnd : isDigitCh c' = false := by
      cases hd : isDigitCh c'
      · rfl
      · rw [show isWordCh c' = true from by simp [isWordCh, hd]] at hw
        exact absurd hw (by simp)
    have hend : endStep (o, c' :: t') = some (o, c' :: t') := by
      rw [endStep, if_neg]
      simp [hw]
    have hne5 : c' ≠ '5' := ne_digit_of_not_digit hnd (by decide)
    have hr4 : ¬('0' ≤ c' ∧ c' ≤ '4') := not_range_of_not_digit hnd (by decide)
    have hr5 : ¬('0' ≤ c' ∧ c' ≤ '5') := not_range_of_not_digit hnd (by decide)
    rcases o with _ | ⟨a, _ | ⟨b, _ | ⟨c, _ | ⟨d, o'⟩⟩⟩⟩
    · rw [show isOctetStr [] = false from rfl] at ho
      exact absurd ho (by simp)
    · have ha : isDigitCh a = true := ho
      show pickEnd (octetSplits (a :: c' :: t')) = some ([a], c' :: t')
      simp [octetSplits, pickEnd, List.findSome?, ha, hnd, hne5, hr4, hr5, hend]
    · have hab : (isDigitCh a && isDigitCh b) = true := ho
      obtain ⟨ha, hb2⟩ := Bool.and_eq_true_iff.mp hab
      show pickEnd (octetSplits (a :: b :: c' :: t')) = some ([a, b], c' :: t')
      by_cases h01 : a = '0' ∨ a = '1' <;>
        simp [octetSplits, pickEnd, List.findSome?, ha, hb2, h01, hnd, hne5,
          hr4, hr5, hend]
    · show pickEnd (octetSplits (a :: b :: c :: c' :: t')) = some ([a, b, c], c' :: t')
      have ho3 := ho
      simp only [isOctetStr, Bool.or_eq_true, Bool.and_eq_true_iff, beq_iff_eq,
        decide_eq_true_eq] at ho3
      rcases ho3 with ((⟨⟨ha2, hb5⟩, hc0, hc5⟩ | ⟨⟨ha2, hb0, hb4⟩, hc⟩) | ⟨⟨h01, hb2⟩, hc⟩)
      · subst ha2 hb5
        simp [octetSplits, pickEnd, List.findSome?, hc0, hc5, hnd, hend]
      · subst ha2
        have hb5 : b ≠ '5' := by
          intro h
          subst h
          exact absurd hb4 (by decide)
        simp [octetSplits, pickEnd, List.findSome?, hb0, hb4, hb5, hc, hnd, hend]
      · rcases h01 with rfl | rfl <;>
          simp [octetSplits, pickEnd, List.findSome?, hb2, hc, hnd, hend]
    · rw [show isOctetStr (a :: b :: c :: d :: o') = false from rfl] at ho
      exact absurd ho (by simp)

/-! #### Quads, token texts, and the full scan -/

theorem matchQuad_nondigit {c : Char} (hc : isDigitCh c = false) (rest : List Char) :
    matchQuad (c :: rest) = none := by
  have h2 : c ≠ '2' := ne_digit_of_not_digit hc (by decide)
  have h0 : c ≠ '0' := ne_digit_of_not_digit hc (by decide)
  have h1 : c ≠ '1' := ne_digit_of_not_digit hc (by decide)
  simp [matchQuad, pickDot, octetSplits, List.findSome?, hc, h2, h0, h1]

theorem splitDot_ne_nil (cs : List Char) : splitDot cs ≠ [] := by
  rcases cs with _ | ⟨c, rest⟩
  · simp [splitDot]
  · rw [splitDot]
    split
    · simp
    · split
      · simp
      · simp

theorem joinDots_cons_head (c : Char) (p : List Char) (ps : List (List Char)) :
    joinDots ((c :: p) :: ps) = c :: joinDots (p :: ps) := by
  cases ps <;> rfl

theorem joinDots_splitDot (cs : List Char) : joinDots (splitDot cs) = cs := by
  induction cs with
  | nil => rfl
  | cons c rest ih =>
    obtain ⟨p, ps, hps⟩ : ∃ p ps, splitDot rest = p :: ps := by
      rcases h : splitDot rest with _ | ⟨p, ps⟩
      · exact absurd h (splitDot_ne_nil rest)
      · exact ⟨p, ps, rfl⟩
    rw [splitDot]
    by_cases hc : (c == '.') = true
    · rw [if_pos hc, hps]
      rw [show joinDots ([] :: p :: ps) = '.' :: joinDots (p :: ps) from rfl]
      rw [← hps, ih]
      obtain rfl : c = '.' := eq_of_beq hc
      rfl
    · rw [if_neg hc, hps]
      rw [show (match p :: ps with
          | p :: ps => (c :: p) :: ps
          | [] => [[c]]) = (c :: p) :: ps from rfl]
      rw [joinDots_cons_head, ← hps, ih]

theorem isQuadStr_decomp (q : List Char) (hq : isQuadStr q = true) :
    ∃ o1 o2 o3 o4, isOctetStr o1 = true ∧ isOctetStr o2 = true
      ∧ isOctetStr o3 = true ∧ isOctetStr o4 = true
      ∧ q = o1 ++ '.' :: (o2 ++ '.' :: (o3 ++ '.' :: o4)) := by
  rw [isQuadStr] at hq
  rcases hsp : splitDot q with _ | ⟨o1, _ | ⟨o2, _ | ⟨o3, _ | ⟨o4, _ | ⟨o5, rest⟩⟩⟩⟩⟩ <;>
    rw [hsp] at hq
  · exact absurd hq (by simp)
  · exact absurd hq (by simp)
  · exact absurd hq (by simp)
  · exact absurd hq (by simp)
  · have hj := joinDots_splitDot q
    rw [hsp] at hj
    obtain ⟨⟨⟨h1, h2⟩, h3⟩, h4⟩ :
        ((isOctetStr o1 = true ∧ isOctetStr o2 = true) ∧ isOctetStr o3 = true)
          ∧ isOctetStr o4 = true := by
      simpa [Bool.and_eq_true_iff] using hq
    refine ⟨o1, o2, o3, o4, h1, h2, h3, h4, ?_⟩
    rw [← hj]
    rfl
  · exact absurd hq (by simp)

theorem matchQuad_quad (q t : List Char) (hq : isQuadStr q = true)
    (hb : boundaryOk t = true) : matchQuad (q ++ t) = some (q, t) := by
  obtain ⟨o1, o2, o3, o4, h1, h2, h3, h4, rfl⟩ := isQuadStr_decomp q hq
  have e : (o1 ++ '.' :: (o2 ++ '.' :: (o3 ++ '.' :: o4))) ++ t
      = o1 ++ '.' :: (o2 ++ '.' :: (o3 ++ '.' :: (o4 ++ t))) := by
    simp [List.append_assoc]
  rw [matchQuad, e, pickDot_octet o1 _ h1]
  dsimp only
  rw [pickDot_octet o2 _ h2]
  dsimp only
  rw [pickDot_octet o3 _ h3]
  dsimp only
  rw [pickEnd_octet o4 t h4 hb]
  simp [List.append_assoc]

theorem isOctetStr_has_digit (o : List Char) (ho : isOctetStr o = true) :
    ∃ a ∈ o, isDigitCh a = true := by
  rcases o with _ | ⟨a, _ | ⟨b, _ | ⟨c, _ | ⟨d, o'⟩⟩⟩⟩
  · rw [show isOctetStr [] = false from rfl] at ho
    exact absurd ho (by simp)
  · exact ⟨a, List.mem_cons_self _ _, ho⟩
  · obtain ⟨ha, _⟩ := Bool.and_eq_true_iff.mp (show (isDigitCh a && isDigitCh b) = true from ho)
    exact ⟨a, List.mem_cons_self _ _, ha⟩
  · have ho3 := ho
    simp only [isOctetStr, Bool.or_eq_true, Bool.and_eq_true_iff, beq_iff_eq,
      decide_eq_true_eq] at ho3
    rcases ho3 with ((⟨⟨ha2, _⟩, _⟩ | ⟨⟨ha2, _⟩, _⟩) | ⟨⟨h01, _⟩, _⟩)
    · subst ha2
      exact ⟨'2', List.mem_cons_self _ _, by decide⟩
    · subst ha2
      exact ⟨'2', List.mem_cons_self _ _, by decide⟩
    · rcases h01 with rfl | rfl
      · exact ⟨'0', List.mem_cons_self _ _, by decide⟩
      · exact ⟨'1', List.mem_cons_self _ _, by decide⟩
  · rw [show isOctetStr (a :: b :: c :: d :: o') = false from rfl] at ho
    exact absurd ho (by simp)

theorem isQuadStr_false_of_noDigits (t : List Char) (h : noDigits t = true) :
    isQuadStr t = false := by
  cases hq : isQuadStr t
  · rfl
  · exfalso
    obtain ⟨o1, o2, o3, o4, h1, _, _, _, rfl⟩ := isQuadStr_decomp t hq
    obtain ⟨a, ha_mem, ha⟩ := isOctetStr_has_digit o1 h1
    rw [noDigits] at h
    have hmem : a ∈ o1 ++ '.' :: (o2 ++ '.' :: (o3 ++ '.' :: o4)) :=
      List.mem_append_left _ ha_mem
    have := (List.all_eq_true.mp h) a hmem
    rw [ha] at this
    exact absurd this (by simp)

theorem scanA_nodigit (t : List Char) (ht : noDigits t = true) :
    ∀ (prev : Bool) (tail : List Char),
      scanA prev (t ++ tail) = scanA (t.foldl (fun _ c => isWordCh c) prev) tail := by
  induction t with
  | nil => intro prev tail; rfl
  | cons c t' ih =>
    intro prev tail
    have hc : isDigitCh c = false := by
      rw [noDigits] at ht
      have := (List.all_eq_true.mp ht) c (List.mem_cons_self c t')
      simpa using this
    have ht' : noDigits t' = true := by
      rw [noDigits] at ht ⊢
      rw [List.all_cons] at ht
      exact (Bool.and_eq_true_iff.mp ht).2
    rw [show (c :: t') ++ tail = c :: (t' ++ tail) from rfl]
    rw [scanA_cons_none prev c (t' ++ tail) (matchQuad_nondigit hc _)]
    rw [ih ht' (isWordCh c) tail]
    rfl

theorem scanA_join (tokens : List (List Char))
    (h : ∀ t ∈ tokens, isQuadStr t = true ∨ noDigits t = true) :
    scanA false (joinTokens tokens) = tokens.filter (fun t => isQuadStr t) := by
  induction tokens with
  | nil => rfl
  | cons t ts ih =>
    have hts : ∀ u ∈ ts, isQuadStr u = true ∨ noDigits u = true :=
      fun u hu => h u (List.mem_cons_of_mem _ hu)
    have htt := h t (List.mem_cons_self _ _)
    rcases ts with _ | ⟨t2, ts'⟩
    · rcases htt with hq | hnd
      · obtain ⟨c, t'', rfl⟩ : ∃ c t'', t = c :: t'' := by
          rcases t with _ | ⟨c, t''⟩
          · rw [show isQuadStr [] = false from by decide] at hq
            exact absurd hq (by simp)
          · exact ⟨c, t'', rfl⟩
        have hm : matchQuad ((c :: t'') ++ ([] : List Char)) = some (c :: t'', []) :=
          matchQuad_quad _ [] hq rfl
        rw [List.append_nil] at hm
        rw [show joinTokens [c :: t''] = c :: t'' from rfl]
        rw [scanA_cons_match c t'' _ _ hm]
        rw [show scanA true [] = [] from rfl]
        simp [hq]
      · have hstep := scanA_nodigit t hnd false []
        rw [List.append_nil] at hstep
        rw [show joinTokens [t] = t from rfl, hstep]
        have hnq : isQuadStr t = false := isQuadStr_false_of_noDigits t hnd
        rw [show ∀ p : Bool, scanA p [] = [] from fun p => rfl]
        simp [hnq]
    · have hj : joinTokens (t :: t2 :: ts') = t ++ ' ' :: joinTokens (t2 :: ts') := rfl
      rcases htt with hq | hnd
      · obtain ⟨c, t'', rfl⟩ : ∃ c t'', t = c :: t'' := by
          rcases t with _ | ⟨c, t''⟩
          · rw [show isQuadStr [] = false from by decide] at hq
            exact absurd hq (by simp)
          · exact ⟨c, t'', rfl⟩
        have hm : matchQuad ((c :: t'') ++ ' ' :: joinTokens (t2 :: ts'))
            = some (c :: t'', ' ' :: joinTokens (t2 :: ts')) :=
          matchQuad_quad _ _ hq rfl
        rw [List.cons_append] at hm
        rw [hj, List.cons_append, scanA_cons_match _ _ _ _ hm]
        rw [scanA_cons_prev]
        rw [show isWordCh ' ' = false from rfl]
        rw [ih hts]
        simp [hq]
      · rw [hj, scanA_nodigit t hnd false (' ' :: joinTokens (t2 :: ts'))]
        rw [scanA_cons_none _ ' ' _
          (matchQuad_nondigit (show isDigitCh ' ' = false from rfl) _)]
        rw [show isWordCh ' ' = false from rfl]
        rw [ih hts]
        have hnq : isQuadStr t = false := isQuadStr_false_of_noDigits t hnd
        simp [hnq]

/-- Token texts for the witness: words and dotted quads separated by spaces. -/
def ipv4_demo_tokens : List (List Char) :=
  ["From".data, "10.0.0.1".data, "and".data, "10.0.0.1".data, "then".data,
   "192.168.1.254".data, "ending".data]

/-- Claim C6: for a text of space-separated tokens, each either a valid
dotted-quad IPv4 string (octets in the pattern's language) or free of
digits, the `ipv4` extraction — `re.findall` followed by
`list(dict.fromkeys(...))` — returns exactly the distinct quad tokens:
it equals the first-occurrence deduplication of the matched quads, has no
duplicates, is a sublist of the matches (first-occurrence order preserved),
contains exactly the values occurring as quads in the text, and its length
is the number k of distinct quad values in the text. -/
theorem ipv4_extraction_dedups_in_first_seen_order (tokens : List (List Char))
    (htok : ∀ t ∈ tokens, isQuadStr t = true ∨ noDigits t = true) :
    extract_iocs_ipv4 (joinTokens tokens)
      = dedupFirst (tokens.filter (fun t => isQuadStr t))
    ∧ (extract_iocs_ipv4 (joinTokens tokens)).Nodup
    ∧ List.Sublist (extract_iocs_ipv4 (joinTokens tokens))
        (tokens.filter (fun t => isQuadStr t))
    ∧ (∀ v, v ∈ extract_iocs_ipv4 (joinTokens tokens)
        ↔ v ∈ tokens.filter (fun t => isQuadStr t))
    ∧ (extract_iocs_ipv4 (joinTokens tokens)).length
        = (tokens.filter (fun t => isQuadStr t)).toFinset.card := by
  have hscan : scanIPv4 (joinTokens tokens) = tokens.filter (fun t => isQuadStr t) := by
    rw [scanIPv4_eq_scanA]
    exact scanA_join tokens htok
  have he : extract_iocs_ipv4 (joinTokens tokens)
      = dedupFirst (tokens.filter (fun t => isQuadStr t)) := by
    rw [extract_iocs_ipv4, hscan]
  refine ⟨he, ?_, ?_, ?_, ?_⟩
  · rw [he]
    exact dedupFirst_nodup _
  · rw [he]
    exact dedupFirst_sublist _
  · intro v
    rw [he]
    exact dedupFirst_mem _ v
  · rw [he]
    exact dedupFirst_length _

/-- Witness for C6: a text with three quad occurrences of two distinct
values yields exactly those two, in first-seen order. -/
theorem ipv4_extraction_witness :
    extract_iocs_ipv4 (joinTokens ipv4_demo_tokens)
      = ["10.0.0.1".data, "192.168.1.254".data]
    ∧ (extract_iocs_ipv4 (joinTokens ipv4_demo_tokens)).length = 2 := by
  have h := ipv4_extraction_dedups_in_first_seen_order ipv4_demo_tokens (by decide)
  refine ⟨h.1.trans (by decide), ?_⟩
  rw [h.1]
  decide

end Phishing
